import Mathlib

/-!
Verification of the Chronos time-tracking application core.

The definitions below are a shallow embedding of the state model and the
state-transition / derived-statistics functions of the application:
`src/App.tsx` (state, mutations, effective-schedule resolver, cascade
deletion, import boundary), the slot-toggle handlers of the views
(`src/unnamed/part_004`, `src/views/ScheduleView.tsx`,
`src/views/TrackerView.tsx`), and the statistics pipeline of the
StatsView revision whose props match what App.tsx passes
(`src/unnamed/part_003`; the `src/views/StatsView.tsx` revision omits the
recurring-template merge in its weekly rollup and does not declare the
`recurringSchedule` prop that App.tsx supplies).

JavaScript objects keyed by hour or by date are embedded as functions into
`Option`: a key that is absent maps to `none`.  Every reader in the source
defaults a missing entry to an empty list, which the embedding mirrors with
`hoursOf` and `Option.getD`.  `Array.from(new Set(l))` is embedded as
`jsDedup` (keep the first occurrence of each element), and `Math.round` on
the nonnegative rationals produced here is `jsRound` (half away from zero,
which on nonnegative input is floor of x + 1/2).
-/

namespace Chronos

/-- A task definition (src/unnamed/part_000, interface Task). -/
structure Task where
  id : String
  name : String
  color : String
  category : String
deriving Repr, DecidableEq

/-- Per-day data: hour index to ordered list of task ids
(src/unnamed/part_000, interface DayData).  An hour key absent from the
JavaScript object is read back as the empty list everywhere in the source,
so hours are embedded as a total function with default `[]`. -/
structure DayData where
  hours : Nat → List String

/-- The aggregate application state (src/App.tsx useState initialiser).
Date-keyed and hour-keyed objects keep track of key presence via `Option`. -/
structure AppState where
  tasks : List Task
  schedule : String → Option DayData
  recurringSchedule : Nat → Option (List String)
  records : String → Option DayData
  reviews : String → Option String

/-- Reading the hours of a possibly-missing day entry:
`state.schedule[dateKey]?.hours ... || []`. -/
def hoursOf (o : Option DayData) : Nat → List String :=
  fun h => match o with
  | some d => d.hours h
  | none => []

/-- The hour indices iterated by every statistics loop
(src/unnamed/part_000, `HOURS = Array.from({length: 24}, (_, i) => i)`). -/
def HOURS : List Nat := List.range 24

/-- `Array.from(new Set(l))`: remove duplicates keeping the first
occurrence of each element, via an accumulator of elements already seen. -/
def jsDedupAux : List String → List String → List String
  | _, [] => []
  | seen, x :: xs =>
    if x ∈ seen then jsDedupAux seen xs else x :: jsDedupAux (x :: seen) xs

/-- `Array.from(new Set(l))` with an empty starting set. -/
def jsDedup (l : List String) : List String := jsDedupAux [] l

/-- JavaScript `Math.round` on the nonnegative rationals arising here. -/
def jsRound (q : ℚ) : ℤ := ⌊q + 1 / 2⌋

/-- `jsDedupAux` only depends on the membership of the seen accumulator. -/
theorem jsDedupAux_congr {s₁ s₂ : List String} (hs : ∀ x, x ∈ s₁ ↔ x ∈ s₂) :
    ∀ l, jsDedupAux s₁ l = jsDedupAux s₂ l := by
  intro l
  induction l generalizing s₁ s₂ with
  | nil => rfl
  | cons x xs ih =>
    by_cases hx : x ∈ s₁
    · rw [jsDedupAux, if_pos hx, jsDedupAux, if_pos ((hs x).mp hx)]
      exact ih hs
    · rw [jsDedupAux, if_neg hx, jsDedupAux, if_neg (fun hc => hx ((hs x).mpr hc))]
      refine congrArg (x :: ·) (ih fun y => ?_)
      simp only [List.mem_cons]
      exact or_congr Iff.rfl (hs y)

/-- Splitting `jsDedupAux` across an append: the second half is deduplicated
with the first half added to the seen set. -/
theorem jsDedupAux_append (a b seen : List String) :
    jsDedupAux seen (a ++ b) = jsDedupAux seen a ++ jsDedupAux (a ++ seen) b := by
  induction a generalizing seen with
  | nil => rfl
  | cons x xs ih =>
    by_cases hx : x ∈ seen
    · rw [List.cons_append, jsDedupAux, if_pos hx, jsDedupAux, if_pos hx, ih]
      refine congrArg _ (jsDedupAux_congr (fun y => ?_) b)
      simp only [List.cons_append, List.mem_cons, List.mem_append]
      constructor
      · exact fun h => Or.inr h
      · rintro (rfl | h)
        · exact Or.inr hx
        · exact h
    · rw [List.cons_append, jsDedupAux, if_neg hx, jsDedupAux, if_neg hx, ih]
      rw [List.cons_append]
      refine congrArg (x :: ·) (congrArg _ (jsDedupAux_congr (fun y => ?_) b))
      simp only [List.cons_append, List.mem_cons, List.mem_append]
      tauto

/-- A seen set can be moved into a filter on the input list. -/
theorem jsDedupAux_filter (b seen₁ seen₂ : List String) :
    jsDedupAux (seen₁ ++ seen₂) b
      = jsDedupAux seen₁ (b.filter (fun x => x ∉ seen₂)) := by
  induction b generalizing seen₁ with
  | nil => rfl
  | cons x xs ih =>
    by_cases h2 : x ∈ seen₂
    · rw [jsDedupAux, if_pos (by simp [h2]), List.filter_cons,
        if_neg (by simp [h2]), ih]
    · by_cases h1 : x ∈ seen₁
      · rw [jsDedupAux, if_pos (by simp [h1]), List.filter_cons,
          if_pos (by simp [h2]), jsDedupAux, if_pos h1, ih]
      · rw [jsDedupAux, if_neg (by simp [h1, h2]), List.filter_cons,
          if_pos (by simp [h2]), jsDedupAux, if_neg h1, ← List.cons_append, ih]

/-- Membership in the result of `jsDedupAux`. -/
theorem mem_jsDedupAux {x : String} :
    ∀ {seen l : List String}, x ∈ jsDedupAux seen l ↔ x ∈ l ∧ x ∉ seen := by
  intro seen l
  induction l generalizing seen with
  | nil => simp [jsDedupAux]
  | cons y ys ih =>
    by_cases hy : y ∈ seen
    · rw [jsDedupAux, if_pos hy, ih]
      simp only [List.mem_cons]
      constructor
      · rintro ⟨h, hn⟩; exact ⟨Or.inr h, hn⟩
      · rintro ⟨h | h, hn⟩
        · subst h; exact absurd hy hn
        · exact ⟨h, hn⟩
    · rw [jsDedupAux, if_neg hy]
      simp only [List.mem_cons, ih, List.mem_cons, not_or]
      by_cases hxy : x = y <;> simp [hxy, hy]

/-- Membership in the result of `jsDedup`. -/
theorem mem_jsDedup {x : String} {l : List String} :
    x ∈ jsDedup l ↔ x ∈ l := by
  rw [jsDedup, mem_jsDedupAux]
  simp

/-- `jsDedupAux` never repeats an element. -/
theorem nodup_jsDedupAux : ∀ (seen l : List String), (jsDedupAux seen l).Nodup := by
  intro seen l
  induction l generalizing seen with
  | nil => exact List.nodup_nil
  | cons x xs ih =>
    by_cases hx : x ∈ seen
    · rw [jsDedupAux, if_pos hx]; exact ih seen
    · rw [jsDedupAux, if_neg hx]
      refine List.nodup_cons.mpr ⟨fun hc => ?_, ih (x :: seen)⟩
      exact ((mem_jsDedupAux.mp hc).2 (List.mem_cons_self x seen))

/-- `jsDedup` produces a duplicate-free list. -/
theorem nodup_jsDedup (l : List String) : (jsDedup l).Nodup :=
  nodup_jsDedupAux [] l

/-- Deduplicating a duplicate-free list (none of whose elements were seen)
returns it unchanged. -/
theorem jsDedupAux_of_nodup :
    ∀ {l seen : List String}, l.Nodup → (∀ x ∈ l, x ∉ seen) →
      jsDedupAux seen l = l := by
  intro l
  induction l with
  | nil => intro seen _ _; rfl
  | cons x xs ih =>
    intro seen hnd hs
    rw [jsDedupAux, if_neg (hs x (List.mem_cons_self x xs))]
    refine congrArg (x :: ·) (ih (List.nodup_cons.mp hnd).2 ?_)
    intro y hy
    intro hc
    cases hc with
    | head => exact (List.nodup_cons.mp hnd).1 hy
    | tail _ hm => exact hs y (List.mem_cons_of_mem x hy) hm

/-- Deduplicating a duplicate-free list returns it unchanged. -/
theorem jsDedup_of_nodup {l : List String} (h : l.Nodup) : jsDedup l = l :=
  jsDedupAux_of_nodup h (by simp)

/-- Deduplicating an append keeps the deduplicated first list and then the
first occurrences of the second list that do not occur in the first. -/
theorem jsDedup_append (a b : List String) :
    jsDedup (a ++ b) = jsDedup a ++ jsDedup (b.filter (fun x => x ∉ a)) := by
  rw [jsDedup, jsDedupAux_append]
  rw [show a ++ ([] : List String) = [] ++ a by simp, jsDedupAux_filter]
  rfl

/-- `updateScheduleHour` (src/App.tsx lines 71-81): writes `taskIds` into the
given hour of the given date, spreading the previous hours of that date. -/
def updateScheduleHour (s : AppState) (dateKey : String) (hour : Nat)
    (taskIds : List String) : AppState :=
  { s with schedule := fun d =>
      if d = dateKey then
        some ⟨fun h => if h = hour then taskIds else hoursOf (s.schedule dateKey) h⟩
      else s.schedule d }

/-- `updateRecurringSchedule` (src/App.tsx lines 83-90): the new
`recurringSchedule` object is the literal `{ [hour]: taskIds }`, without
spreading `prev.recurringSchedule`, so every other hour key is absent from
the new template. -/
def updateRecurringSchedule (s : AppState) (hour : Nat)
    (taskIds : List String) : AppState :=
  { s with recurringSchedule := fun h => if h = hour then some taskIds else none }

/-- `updateRecordHour` (src/App.tsx lines 92-102). -/
def updateRecordHour (s : AppState) (dateKey : String) (hour : Nat)
    (taskIds : List String) : AppState :=
  { s with records := fun d =>
      if d = dateKey then
        some ⟨fun h => if h = hour then taskIds else hoursOf (s.records dateKey) h⟩
      else s.records d }

/-- `currentSchedule` (src/App.tsx lines 51-64): the effective schedule for a
date.  The hours of the date-specific entry are spread first; then, for each
hour key present in the recurring template, the slot becomes
`Array.from(new Set([...existing, ...recTasks]))`.  An hour key absent from
the template keeps the day-specific list verbatim. -/
def currentSchedule (s : AppState) (dateKey : String) : DayData :=
  ⟨fun h =>
    match s.recurringSchedule h with
    | some recTasks => jsDedup (hoursOf (s.schedule dateKey) h ++ recTasks)
    | none => hoursOf (s.schedule dateKey) h⟩

/-- Removing one task id from every hour of a day entry
(the inner loops of `handleDeleteTask`). -/
def deleteIdFromDay (taskId : String) (d : DayData) : DayData :=
  ⟨fun h => (d.hours h).filter (fun id => id ≠ taskId)⟩

/-- `handleDeleteTask` (src/App.tsx lines 129-166): guarded by
`if (!taskId) return` (the empty string is the only falsy string), then
removes the task from the registry and filters its id out of every hour list
of every dated schedule entry, of the recurring template, and of every dated
record entry.  Reviews are untouched. -/
def handleDeleteTask (s : AppState) (taskId : String) : AppState :=
  if taskId = "" then s
  else
    { tasks := s.tasks.filter (fun t => t.id ≠ taskId)
      schedule := fun d => (s.schedule d).map (deleteIdFromDay taskId)
      recurringSchedule := fun h =>
        (s.recurringSchedule h).map (fun l => l.filter (fun id => id ≠ taskId))
      records := fun d => (s.records d).map (deleteIdFromDay taskId)
      reviews := s.reviews }

/-- The slot toggle of src/unnamed/part_004 lines 41-49, src/views/RecordView.tsx
and src/views/ScheduleView.tsx lines 199-216 (both the day-specific and the
recurring branch): clicking an already-present id removes it; otherwise the id
is appended, evicting the oldest entry first when the slot already holds 4. -/
def toggleTask (current : List String) (taskId : String) : List String :=
  if taskId ∈ current then current.filter (fun id => id ≠ taskId)
  else if current.length < 4 then current ++ [taskId]
  else current.drop 1 ++ [taskId]

/-- The slot toggle of src/views/TrackerView.tsx lines 101-133: clicking an
already-present id removes it; otherwise `[...current, taskId].slice(-4)`
keeps the last four entries of the appended list. -/
def toggleTaskSlice (current : List String) (taskId : String) : List String :=
  if taskId ∈ current then current.filter (fun id => id ≠ taskId)
  else (current ++ [taskId]).drop ((current ++ [taskId]).length - 4)

/-- A parsed import document at the boundary of `handleImportData`
(src/App.tsx lines 199-213).  `tasksIsArray` is `Array.isArray(parsed.tasks)`,
`schedulePresent` is the truthiness of `parsed.schedule`, and `value` is the
state the document denotes (the source passes the parsed object to `setState`
unchanged). -/
structure ImportDoc where
  tasksIsArray : Bool
  schedulePresent : Bool
  value : AppState

/-- `handleImportData` (src/App.tsx lines 199-213).  The input is `none` when
`JSON.parse` throws; only that branch shows the failure alert.  A parsed
document passing the two top-level checks replaces the state when the user
confirms the overwrite dialog; any other parsed document is silently
ignored.  The returned flag records whether the failure alert was shown. -/
def handleImportData (input : Option ImportDoc) (confirmed : Bool)
    (s : AppState) : AppState × Bool :=
  match input with
  | none => (s, true)
  | some d =>
    if d.tasksIsArray && d.schedulePresent then
      (if confirmed then d.value else s, false)
    else (s, false)

/-- `plannedCounts[tid]` of `dailyStats` (src/unnamed/part_003 lines 42-58,
src/views/StatsView.tsx lines 36-66): each occurrence of the id in an hour of
the day schedule adds 1. -/
def plannedCount (sched : DayData) (tid : String) : Nat :=
  (HOURS.map (fun h => (sched.hours h).count tid)).sum

/-- `actualCounts[tid]` of `dailyStats`: each occurrence of the id in an hour
of the record adds `1 / (actual.length || 1)`, splitting a shared hour among
the ids recorded in it. -/
def actualCredit (rec : DayData) (tid : String) : ℚ :=
  (HOURS.map (fun h =>
    ((rec.hours h).count tid : ℚ) * (1 / (max (rec.hours h).length 1 : ℚ)))).sum

/-- The `percentage` of a `dailyStats` entry:
`planned > 0 ? Math.round(actual / planned * 100) : (actual > 0 ? 100 : 0)`. -/
def percentageOf (planned : Nat) (actual : ℚ) : ℤ :=
  if 0 < planned then jsRound (actual / planned * 100)
  else if 0 < actual then 100 else 0

/-- One entry of the per-task daily adherence list. -/
structure TaskDayStat where
  planned : Nat
  actual : ℚ
  percentage : ℤ
deriving DecidableEq

/-- The per-task daily adherence metric of `dailyStats` (the view then maps
this over `tasks`, filters out all-zero rows and sorts for display). -/
def taskDailyStat (sched rec : DayData) (tid : String) : TaskDayStat :=
  ⟨plannedCount sched tid, actualCredit rec tid,
    percentageOf (plannedCount sched tid) (actualCredit rec tid)⟩

/-- One entry of the weekly/monthly `scores` array (src/unnamed/part_003
lines 73-91); only the fields the statistics use are kept. -/
structure ScoreEntry where
  score : ℤ
  hasPlan : Bool
deriving DecidableEq

/-- One hour of the `scores` loop body (src/unnamed/part_003 lines 78-85):
`pTasks = Array.from(new Set([...recurring[h] || [], ...sched[h] || []]))`
and, when `pTasks` is nonempty, `totalPlannedSlots += pTasks.length` and
`completedSlots += pTasks.filter(pid => rTasks.includes(pid)).length`. -/
def scoreStep (recurring : Nat → Option (List String))
    (sched rec : Nat → List String) (acc : Nat × Nat) (h : Nat) : Nat × Nat :=
  if 0 < (jsDedup ((recurring h).getD [] ++ sched h)).length then
    (acc.1 + (jsDedup ((recurring h).getD [] ++ sched h)).length,
     acc.2 + ((jsDedup ((recurring h).getD [] ++ sched h)).filter
        (fun pid => pid ∈ rec h)).length)
  else acc

/-- The accumulation of `totalPlannedSlots` and `completedSlots` over the 24
hours of one day in the window (src/unnamed/part_003 lines 77-85). -/
def scoreTotals (recurring : Nat → Option (List String))
    (sched rec : Nat → List String) : Nat × Nat :=
  HOURS.foldl (scoreStep recurring sched rec) (0, 0)

/-- One day of the weekly/monthly `scores` array:
`score = totalPlannedSlots === 0 ? 0 : Math.round(completed / planned * 100)`
and `hasPlan = totalPlannedSlots > 0`. -/
def scoreDay (recurring : Nat → Option (List String))
    (sched rec : Nat → List String) : ScoreEntry :=
  let t := scoreTotals recurring sched rec
  ⟨if t.1 = 0 then 0 else jsRound ((t.2 : ℚ) / (t.1 : ℚ) * 100),
    decide (0 < t.1)⟩

/-- The `scores` array over the days of the analysis window
(src/unnamed/part_003 line 73: `days.map(day => ...)`). -/
def scoresFor (days : List String) (recurring : Nat → Option (List String))
    (allSchedules allRecords : String → Option DayData) : List ScoreEntry :=
  days.map (fun d =>
    scoreDay recurring (hoursOf (allSchedules d)) (hoursOf (allRecords d)))

/-- `averageScore` (src/unnamed/part_003 lines 106-107, src/views/StatsView.tsx
lines 159-160): the rounded mean of the scores of the days with a plan,
and 0 when no day in the window has one. -/
def averageScore (entries : List ScoreEntry) : ℤ :=
  let active := entries.filter (fun e => e.hasPlan)
  if active.length = 0 then 0
  else jsRound (((active.map (fun e => e.score)).sum : ℚ) / (active.length : ℚ))

/-- Specification-side effective hour slot, following the words of the
Schedule Resolver contract: the duplicate-free day-specific list first,
followed by the first occurrences of the template ids not already present
in the day-specific list. -/
def specEffectiveHour (day tmpl : List String) : List String :=
  jsDedup day ++ jsDedup (tmpl.filter (fun x => x ∉ day))

/-- Specification-side planned slot count of one day of the rollup, following
the words of the windowed-rollup contract: per hour, the length of the
deduplicated union of the recurring template list and the day-specific list,
summed over the 24 hours. -/
def specPlannedTotal (recurring : Nat → Option (List String))
    (sched : Nat → List String) : Nat :=
  (HOURS.map (fun h => (jsDedup ((recurring h).getD [] ++ sched h)).length)).sum

/-- Specification-side completed slot count of one day of the rollup: per
hour, the number of planned ids that also appear in that hour of the record,
summed over the 24 hours. -/
def specCompletedTotal (recurring : Nat → Option (List String))
    (sched rec : Nat → List String) : Nat :=
  (HOURS.map (fun h =>
    ((jsDedup ((recurring h).getD [] ++ sched h)).filter
      (fun pid => pid ∈ rec h)).length)).sum

/-- A concrete state whose recurring template has entries at hours 9 and 10,
used to evaluate `updateRecurringSchedule`. -/
def twoHourTemplateState : AppState :=
  { tasks := []
    schedule := fun _ => none
    recurringSchedule := fun h =>
      if h = 9 then some ["A"] else if h = 10 then some ["B"] else none
    records := fun _ => none
    reviews := fun _ => none }

/-- C1: setRecurringHour is claimed to replace the list for the given hour
and leave every other hour of the template unchanged.  The source builds the
new template as the literal object `{ [hour]: taskIds }` without spreading
the previous template, so hour 9 does receive exactly the new list, but the
entry the template held at hour 10 is dropped: the mutation erases every
other hour instead of preserving it. -/
theorem setRecurringHour_drops_other_hours :
    (updateRecurringSchedule twoHourTemplateState 9 ["A", "C"]).recurringSchedule 9
        = some ["A", "C"]
      ∧ twoHourTemplateState.recurringSchedule 10 = some ["B"]
      ∧ (updateRecurringSchedule twoHourTemplateState 9 ["A", "C"]).recurringSchedule 10
        = none :=
  ⟨rfl, rfl, rfl⟩

/-- C4 counterexample: at a slot already holding 4 ids, toggling a new id in
evicts the oldest, and toggling it back out does not restore the original
list, refuting the claim for lists of length 4. -/
theorem toggle_roundtrip_fails_at_capacity :
    ("e" ∉ (["a", "b", "c", "d"] : List String))
      ∧ (["a", "b", "c", "d"] : List String).length ≤ 4
      ∧ toggleTask (toggleTask ["a", "b", "c", "d"] "e") "e" = ["b", "c", "d"]
      ∧ toggleTask (toggleTask ["a", "b", "c", "d"] "e") "e" ≠ ["a", "b", "c", "d"] := by
  refine ⟨by decide, by decide, ?_, ?_⟩ <;> decide

/-- C4 (amended: the slot holds at most 3 ids, so that no eviction happens):
toggling a task id that is not in the slot in and then out restores the
original list exactly, for both toggle implementations. -/
theorem toggle_roundtrip (L : List String) (t : String)
    (hmem : t ∉ L) (hlen : L.length ≤ 3) :
    toggleTask (toggleTask L t) t = L ∧ toggleTaskSlice (toggleTaskSlice L t) t = L := by
  have hfilter : (L ++ [t]).filter (fun id => id ≠ t) = L := by
    rw [List.filter_append]
    have h1 : L.filter (fun id => id ≠ t) = L :=
      List.filter_eq_self.mpr (fun a ha => by
        simp only [ne_eq, decide_eq_true_eq]
        exact fun hc => hmem (hc ▸ ha))
    have h2 : ([t] : List String).filter (fun id => id ≠ t) = [] := by simp
    rw [h1, h2, List.append_nil]
  have hmem2 : t ∈ L ++ [t] := List.mem_append_right L (List.mem_singleton.mpr rfl)
  have hdrop : (L ++ [t]).length - 4 = 0 := by
    simp only [List.length_append, List.length_singleton]; omega
  constructor
  · have hin : toggleTask L t = L ++ [t] := by
      rw [toggleTask, if_neg hmem, if_pos (by omega)]
    rw [hin, toggleTask, if_pos hmem2, hfilter]
  · have hin : toggleTaskSlice L t = L ++ [t] := by
      rw [toggleTaskSlice, if_neg hmem, hdrop, List.drop_zero]
    rw [hin, toggleTaskSlice, if_pos hmem2, hfilter]

/-- C4 witness: the amended round trip at the concrete slot ["a", "b"]. -/
theorem toggle_roundtrip_witness :
    ("e" ∉ (["a", "b"] : List String)) ∧ (["a", "b"] : List String).length ≤ 3
      ∧ (toggleTask (toggleTask ["a", "b"] "e") "e" = ["a", "b"]
         ∧ toggleTaskSlice (toggleTaskSlice ["a", "b"] "e") "e" = ["a", "b"]) :=
  ⟨by decide, by decide, toggle_roundtrip ["a", "b"] "e" (by decide) (by decide)⟩

/-- C8: inserting a new id into a slot already holding 4 ids yields exactly 4
ids: the tail of the original list followed by the new id, which therefore
sits last; when the original 4 ids are distinct, the oldest (first) id is no
longer in the slot. -/
theorem insert_at_capacity (L : List String) (t : String)
    (hlen : L.length = 4) (hmem : t ∉ L) :
    toggleTask L t = L.drop 1 ++ [t]
      ∧ (toggleTask L t).length = 4
      ∧ (toggleTask L t).getLast? = some t
      ∧ t ∈ toggleTask L t
      ∧ (L.Nodup → ∀ x, L.head? = some x → x ∉ toggleTask L t) := by
  have heq : toggleTask L t = L.drop 1 ++ [t] := by
    rw [toggleTask, if_neg hmem, if_neg (by omega)]
  refine ⟨heq, ?_, ?_, ?_, ?_⟩
  · rw [heq]; simp only [List.length_append, List.length_drop, List.length_singleton]
    omega
  · rw [heq]; exact List.getLast?_concat _
  · rw [heq]; exact List.mem_append_right _ (List.mem_singleton.mpr rfl)
  · intro hnd x hx
    rw [heq]
    cases L with
    | nil => simp at hlen
    | cons y ys =>
      have hxy : y = x := by simpa using hx
      subst hxy
      simp only [List.drop_succ_cons, List.drop_zero, List.mem_append,
        List.mem_singleton, not_or]
      refine ⟨(List.nodup_cons.mp hnd).1, fun hc => ?_⟩
      exact hmem (hc ▸ List.mem_cons_self _ _)

/-- C8 witness: inserting "e" into the full slot ["a", "b", "c", "d"]. -/
theorem insert_at_capacity_witness :
    (["a", "b", "c", "d"] : List String).length = 4
      ∧ ("e" ∉ (["a", "b", "c", "d"] : List String))
      ∧ (toggleTask ["a", "b", "c", "d"] "e" = ["a", "b", "c", "d"].drop 1 ++ ["e"]
         ∧ (toggleTask ["a", "b", "c", "d"] "e").length = 4
         ∧ (toggleTask ["a", "b", "c", "d"] "e").getLast? = some "e"
         ∧ "e" ∈ toggleTask ["a", "b", "c", "d"] "e"
         ∧ ((["a", "b", "c", "d"] : List String).Nodup →
            ∀ x, (["a", "b", "c", "d"] : List String).head? = some x →
              x ∉ toggleTask ["a", "b", "c", "d"] "e")) :=
  ⟨by decide, by decide,
    insert_at_capacity ["a", "b", "c", "d"] "e" (by decide) (by decide)⟩

/-- A concrete state containing a task whose id is the empty string, which
also appears in a schedule slot. -/
def emptyIdState : AppState :=
  { tasks := [⟨"", "untitled", "#fff", "misc"⟩]
    schedule := fun d =>
      if d = "2024-01-01" then some ⟨fun h => if h = 9 then [""] else []⟩ else none
    recurringSchedule := fun _ => none
    records := fun _ => none
    reviews := fun _ => none }

/-- C2 counterexample: `handleDeleteTask` starts with `if (!taskId) return`,
and the empty string is falsy, so deleting the task whose id is `""` is a
no-op: the task stays in the registry and its id stays in the schedule slot,
refuting the claim for that task. -/
theorem deleteTask_misses_empty_id :
    (⟨"", "untitled", "#fff", "misc"⟩ : Task) ∈ emptyIdState.tasks
      ∧ (⟨"", "untitled", "#fff", "misc"⟩ : Task)
          ∈ (handleDeleteTask emptyIdState "").tasks
      ∧ "" ∈ hoursOf ((handleDeleteTask emptyIdState "").schedule "2024-01-01") 9 := by
  have hnoop : handleDeleteTask emptyIdState "" = emptyIdState := by
    rw [handleDeleteTask, if_pos rfl]
  refine ⟨List.mem_singleton.mpr rfl, ?_, ?_⟩
  · rw [hnoop]; exact List.mem_singleton.mpr rfl
  · rw [hnoop]
    simp [emptyIdState, hoursOf]

/-- C2 (amended: the deleted task has a nonempty id, the only string the
`if (!taskId) return` guard treats as falsy): after `handleDeleteTask`, the
task is gone from the registry and its id is gone from every hour slot of
every dated schedule entry, of the recurring template, and of every dated
record entry. -/
theorem deleteTask_cascade (s : AppState) (t : Task)
    (hmem : t ∈ s.tasks) (hid : t.id ≠ "") :
    t ∉ (handleDeleteTask s t.id).tasks
      ∧ (∀ d h, t.id ∉ hoursOf ((handleDeleteTask s t.id).schedule d) h)
      ∧ (∀ h, t.id ∉ ((handleDeleteTask s t.id).recurringSchedule h).getD [])
      ∧ (∀ d h, t.id ∉ hoursOf ((handleDeleteTask s t.id).records d) h) := by
  have htasks : (handleDeleteTask s t.id).tasks
      = s.tasks.filter (fun u => u.id ≠ t.id) := by
    rw [handleDeleteTask, if_neg hid]
  have hsch : ∀ d, (handleDeleteTask s t.id).schedule d
      = (s.schedule d).map (deleteIdFromDay t.id) := by
    intro d; rw [handleDeleteTask, if_neg hid]
  have hrecur : ∀ h, (handleDeleteTask s t.id).recurringSchedule h
      = (s.recurringSchedule h).map (fun l => l.filter (fun id => id ≠ t.id)) := by
    intro h; rw [handleDeleteTask, if_neg hid]
  have hrecs : ∀ d, (handleDeleteTask s t.id).records d
      = (s.records d).map (deleteIdFromDay t.id) := by
    intro d; rw [handleDeleteTask, if_neg hid]
  refine ⟨?_, ?_, ?_, ?_⟩
  · intro hc
    rw [htasks] at hc
    have := (List.mem_filter.mp hc).2
    simp at this
  · intro d h hc
    rw [hsch d] at hc
    cases hs : s.schedule d with
    | none => rw [hs] at hc; simp [hoursOf] at hc
    | some dd =>
      rw [hs] at hc
      simp [hoursOf, deleteIdFromDay, List.mem_filter] at hc
  · intro h hc
    rw [hrecur h] at hc
    cases hs : s.recurringSchedule h with
    | none => rw [hs] at hc; simp at hc
    | some l =>
      rw [hs] at hc
      simp [List.mem_filter] at hc
  · intro d h hc
    rw [hrecs d] at hc
    cases hs : s.records d with
    | none => rw [hs] at hc; simp [hoursOf] at hc
    | some dd =>
      rw [hs] at hc
      simp [hoursOf, deleteIdFromDay, List.mem_filter] at hc

/-- A concrete state exercising every branch of the cascade deletion. -/
def cascadeState : AppState :=
  { tasks := [⟨"t1", "Read", "#f00", "study"⟩, ⟨"t2", "Run", "#0f0", "sport"⟩]
    schedule := fun d =>
      if d = "2024-01-01" then some ⟨fun h => if h = 9 then ["t1", "t2"] else []⟩
      else none
    recurringSchedule := fun h => if h = 7 then some ["t1"] else none
    records := fun d =>
      if d = "2024-01-01" then some ⟨fun h => if h = 9 then ["t2", "t1"] else []⟩
      else none
    reviews := fun _ => none }

/-- C2 witness: the cascade at the concrete state `cascadeState` and the
task "t1". -/
theorem deleteTask_cascade_witness :
    (⟨"t1", "Read", "#f00", "study"⟩ : Task) ∈ cascadeState.tasks
      ∧ (⟨"t1", "Read", "#f00", "study"⟩ : Task).id ≠ ""
      ∧ ((⟨"t1", "Read", "#f00", "study"⟩ : Task)
            ∉ (handleDeleteTask cascadeState "t1").tasks
        ∧ (∀ d h, "t1" ∉ hoursOf ((handleDeleteTask cascadeState "t1").schedule d) h)
        ∧ (∀ h, "t1" ∉ ((handleDeleteTask cascadeState "t1").recurringSchedule h).getD [])
        ∧ (∀ d h, "t1" ∉ hoursOf ((handleDeleteTask cascadeState "t1").records d) h)) :=
  ⟨List.mem_cons_self _ _, by decide,
    deleteTask_cascade cascadeState ⟨"t1", "Read", "#f00", "study"⟩
      (List.mem_cons_self _ _) (by decide)⟩

/-- C10: `handleDeleteTask` changes nothing besides removing occurrences of
the given id: reviews are untouched; the task list loses only tasks carrying
the id, the others staying in relative order (the new list is a sublist of
the old one containing the old list filtered to the other ids); and every
hour slot of every dated schedule entry, of the recurring template, and of
every dated record entry loses only occurrences of the id, keeping the
remaining ids in their relative order. -/
theorem deleteTask_frame (s : AppState) (tid : String) :
    (handleDeleteTask s tid).reviews = s.reviews
      ∧ ((handleDeleteTask s tid).tasks.Sublist s.tasks
         ∧ (s.tasks.filter (fun u => u.id ≠ tid)).Sublist (handleDeleteTask s tid).tasks)
      ∧ (∀ d h,
          (hoursOf ((handleDeleteTask s tid).schedule d) h).Sublist
              (hoursOf (s.schedule d) h)
            ∧ ((hoursOf (s.schedule d) h).filter (fun id => id ≠ tid)).Sublist
              (hoursOf ((handleDeleteTask s tid).schedule d) h))
      ∧ (∀ h,
          (((handleDeleteTask s tid).recurringSchedule h).getD []).Sublist
              ((s.recurringSchedule h).getD [])
            ∧ (((s.recurringSchedule h).getD []).filter (fun id => id ≠ tid)).Sublist
              (((handleDeleteTask s tid).recurringSchedule h).getD []))
      ∧ (∀ d h,
          (hoursOf ((handleDeleteTask s tid).records d) h).Sublist
              (hoursOf (s.records d) h)
            ∧ ((hoursOf (s.records d) h).filter (fun id => id ≠ tid)).Sublist
              (hoursOf ((handleDeleteTask s tid).records d) h)) := by
  by_cases hid : tid = ""
  · have hnoop : handleDeleteTask s tid = s := by rw [handleDeleteTask, if_pos hid]
    rw [hnoop]
    exact ⟨rfl, ⟨List.Sublist.refl _, List.filter_sublist _⟩,
      fun d h => ⟨List.Sublist.refl _, List.filter_sublist _⟩,
      fun h => ⟨List.Sublist.refl _, List.filter_sublist _⟩,
      fun d h => ⟨List.Sublist.refl _, List.filter_sublist _⟩⟩
  · have htasks : (handleDeleteTask s tid).tasks
        = s.tasks.filter (fun u => u.id ≠ tid) := by
      rw [handleDeleteTask, if_neg hid]
    have hrev : (handleDeleteTask s tid).reviews = s.reviews := by
      rw [handleDeleteTask, if_neg hid]
    have hsch : ∀ d, (handleDeleteTask s tid).schedule d
        = (s.schedule d).map (deleteIdFromDay tid) := by
      intro d; rw [handleDeleteTask, if_neg hid]
    have hrecur : ∀ h, (handleDeleteTask s tid).recurringSchedule h
        = (s.recurringSchedule h).map (fun l => l.filter (fun id => id ≠ tid)) := by
      intro h; rw [handleDeleteTask, if_neg hid]
    have hrecs : ∀ d, (handleDeleteTask s tid).records d
        = (s.records d).map (deleteIdFromDay tid) := by
      intro d; rw [handleDeleteTask, if_neg hid]
    refine ⟨hrev, ?_, ?_, ?_, ?_⟩
    · rw [htasks]; exact ⟨List.filter_sublist _, List.Sublist.refl _⟩
    · intro d h
      rw [hsch d]
      cases s.schedule d with
      | none => simp [hoursOf]
      | some dd => exact ⟨List.filter_sublist _, List.Sublist.refl _⟩
    · intro h
      rw [hrecur h]
      cases s.recurringSchedule h with
      | none => simp
      | some l => exact ⟨List.filter_sublist _, List.Sublist.refl _⟩
    · intro d h
      rw [hrecs d]
      cases s.records d with
      | none => simp [hoursOf]
      | some dd => exact ⟨List.filter_sublist _, List.Sublist.refl _⟩

/-- A concrete state whose day-specific slot at hour 9 holds a duplicated id
while the recurring template has no entry for hour 9. -/
def dupSlotState : AppState :=
  { tasks := []
    schedule := fun d =>
      if d = "2024-01-01" then some ⟨fun h => if h = 9 then ["A", "A"] else []⟩
      else none
    recurringSchedule := fun _ => none
    records := fun _ => none
    reviews := fun _ => none }

/-- C3 counterexample: for an hour key absent from the recurring template the
resolver returns the day-specific list verbatim, without deduplication, so a
day list with a duplicate refutes the claim that every resolved hour is the
duplicate-free union of the two sources. -/
theorem currentSchedule_keeps_day_duplicates :
    (currentSchedule dupSlotState "2024-01-01").hours 9 = ["A", "A"]
      ∧ specEffectiveHour (hoursOf (dupSlotState.schedule "2024-01-01") 9)
          ((dupSlotState.recurringSchedule 9).getD []) = ["A"]
      ∧ (currentSchedule dupSlotState "2024-01-01").hours 9
          ≠ specEffectiveHour (hoursOf (dupSlotState.schedule "2024-01-01") 9)
              ((dupSlotState.recurringSchedule 9).getD [])
      ∧ ¬ ((currentSchedule dupSlotState "2024-01-01").hours 9).Nodup := by
  refine ⟨rfl, rfl, ?_, ?_⟩ <;> decide

/-- C3 (amended: the day-specific list for the hour is duplicate-free, as the
slot invariant promises; a hand-imported duplicate in an hour the template
does not mention is returned verbatim): each resolved hour is the
duplicate-free union of the day-specific list followed by the first
occurrences of the template ids not already present, day-specific entries
first; a source missing the hour contributes the empty list. -/
theorem currentSchedule_union (s : AppState) (dateKey : String) (h : Nat)
    (hnd : (hoursOf (s.schedule dateKey) h).Nodup) :
    (currentSchedule s dateKey).hours h
      = specEffectiveHour (hoursOf (s.schedule dateKey) h)
          ((s.recurringSchedule h).getD []) := by
  cases hr : s.recurringSchedule h with
  | none =>
    simp only [currentSchedule, hr, Option.getD_none, specEffectiveHour]
    rw [List.filter_nil, show jsDedup [] = [] from rfl, List.append_nil,
      jsDedup_of_nodup hnd]
  | some recTasks =>
    simp only [currentSchedule, hr, Option.getD_some, specEffectiveHour]
    exact jsDedup_append _ _

/-- A concrete state with both a day-specific slot and an overlapping
recurring-template entry at hour 9. -/
def overlapState : AppState :=
  { tasks := []
    schedule := fun d =>
      if d = "2024-01-01" then some ⟨fun h => if h = 9 then ["A", "B"] else []⟩
      else none
    recurringSchedule := fun h => if h = 9 then some ["B", "C", "C"] else none
    records := fun _ => none
    reviews := fun _ => none }

/-- C3 witness: resolving hour 9 of `overlapState`, where the day list is
duplicate-free and the template overlaps it. -/
theorem currentSchedule_union_witness :
    (hoursOf (overlapState.schedule "2024-01-01") 9).Nodup
      ∧ (currentSchedule overlapState "2024-01-01").hours 9
          = specEffectiveHour (hoursOf (overlapState.schedule "2024-01-01") 9)
              ((overlapState.recurringSchedule 9).getD [])
      ∧ specEffectiveHour (hoursOf (overlapState.schedule "2024-01-01") 9)
          ((overlapState.recurringSchedule 9).getD []) = ["A", "B", "C"] :=
  ⟨by decide, currentSchedule_union overlapState "2024-01-01" 9 (by decide),
    by decide⟩

/-- The day schedule of the adherence example: hour 9 plans task "A". -/
def exampleSchedule : DayData := ⟨fun h => if h = 9 then ["A"] else []⟩

/-- The day record of the adherence example: hour 9 records "A" and "B". -/
def exampleRecord : DayData := ⟨fun h => if h = 9 then ["A", "B"] else []⟩

/-- C5: with schedule hours {9: ["A"]} and record hours {9: ["A", "B"]}, the
daily metric gives task "A" planned 1, actual credit 1/2 and percentage 50,
and task "B" planned 0, actual credit 1/2 and percentage 100; in general the
percentage is round(actual / planned * 100) when planned is positive, else
100 when the actual credit is positive and 0 otherwise. -/
theorem daily_adherence_example :
    taskDailyStat exampleSchedule exampleRecord "A" = ⟨1, 1/2, 50⟩
      ∧ taskDailyStat exampleSchedule exampleRecord "B" = ⟨0, 1/2, 100⟩
      ∧ ∀ (sched recd : DayData) (tid : String),
          (taskDailyStat sched recd tid).percentage
            = (if 0 < (taskDailyStat sched recd tid).planned
               then jsRound ((taskDailyStat sched recd tid).actual
                  / ((taskDailyStat sched recd tid).planned : ℚ) * 100)
               else if 0 < (taskDailyStat sched recd tid).actual then 100 else 0) := by
  have hrange : List.range 24
      = [0, 1, 2, 3, 4, 5, 6, 7, 8, 9, 10, 11, 12,
         13, 14, 15, 16, 17, 18, 19, 20, 21, 22, 23] := rfl
  have hpA : plannedCount exampleSchedule "A" = 1 := by decide
  have hpB : plannedCount exampleSchedule "B" = 0 := by decide
  have haA : actualCredit exampleRecord "A" = 1 / 2 := by
    show ((List.range 24).map _).sum = 1 / 2
    rw [hrange]
    norm_num [exampleRecord, List.count_cons]
    decide
  have haB : actualCredit exampleRecord "B" = 1 / 2 := by
    show ((List.range 24).map _).sum = 1 / 2
    rw [hrange]
    norm_num [exampleRecord, List.count_cons]
    decide
  refine ⟨?_, ?_, ?_⟩
  · rw [taskDailyStat, hpA, haA, percentageOf, if_pos (by norm_num)]
    norm_num [jsRound]
  · rw [taskDailyStat, hpB, haB, percentageOf, if_neg (by norm_num),
      if_pos (by norm_num)]
  · intro sched recd tid
    simp only [taskDailyStat, percentageOf]

/-- The guarded fold of the scores loop computes, from any starting
accumulator, the componentwise sums of the per-hour planned and completed
slot counts. -/
theorem foldl_scoreStep (recurring : Nat → Option (List String))
    (sched rec : Nat → List String) :
    ∀ (hs : List Nat) (a b : Nat),
      hs.foldl (scoreStep recurring sched rec) (a, b)
        = (a + (hs.map
              (fun h => (jsDedup ((recurring h).getD [] ++ sched h)).length)).sum,
           b + (hs.map (fun h =>
              ((jsDedup ((recurring h).getD [] ++ sched h)).filter
                (fun pid => pid ∈ rec h)).length)).sum) := by
  intro hs
  induction hs with
  | nil => intro a b; simp
  | cons h hs ih =>
    intro a b
    rw [List.foldl_cons, List.map_cons, List.map_cons, List.sum_cons, List.sum_cons]
    by_cases hp : 0 < (jsDedup ((recurring h).getD [] ++ sched h)).length
    · rw [scoreStep, if_pos hp, ih]
      simp only [Prod.mk.injEq]
      omega
    · have hlen : (jsDedup ((recurring h).getD [] ++ sched h)).length = 0 := by omega
      have hnil : jsDedup ((recurring h).getD [] ++ sched h) = [] :=
        List.length_eq_zero.mp hlen
      rw [scoreStep, if_neg hp, ih, hlen, hnil]
      simp

/-- The length of the deduplication of an append does not depend on the
order of the two halves. -/
theorem jsDedup_length_comm (a b : List String) :
    (jsDedup (a ++ b)).length = (jsDedup (b ++ a)).length := by
  rw [← List.toFinset_card_of_nodup (nodup_jsDedup (a ++ b)),
    ← List.toFinset_card_of_nodup (nodup_jsDedup (b ++ a))]
  congr 1
  ext x
  simp only [List.mem_toFinset, mem_jsDedup, List.mem_append]
  exact or_comm

/-- The day totals of the scores loop equal the per-hour sums of the planned
and completed slot counts. -/
theorem scoreTotals_spec (recurring : Nat → Option (List String))
    (sched rec : Nat → List String) :
    scoreTotals recurring sched rec
      = (specPlannedTotal recurring sched, specCompletedTotal recurring sched rec) := by
  rw [scoreTotals, foldl_scoreStep, specPlannedTotal, specCompletedTotal]
  simp

/-- C7: for every day of the window, the rollup accumulates per hour the
size of the deduplicated union of the recurring template list and the
day-specific list as the planned slot count, and the number of those planned
ids appearing in that hour of the record as the completed slot count; the
planned count per hour agrees with the effective-schedule union written with
the day-specific entries first. -/
theorem rollup_counts (recurring : Nat → Option (List String))
    (sched rec : Nat → List String) :
    scoreTotals recurring sched rec
        = (specPlannedTotal recurring sched, specCompletedTotal recurring sched rec)
      ∧ ∀ h, (jsDedup ((recurring h).getD [] ++ sched h)).length
          = (jsDedup (sched h ++ (recurring h).getD [])).length := by
  exact ⟨scoreTotals_spec recurring sched rec, fun h => jsDedup_length_comm _ _⟩

/-- Unfolding `averageScore` when at least one entry has a plan. -/
theorem averageScore_pos (entries : List ScoreEntry)
    (h : (entries.filter (fun e => e.hasPlan)).length ≠ 0) :
    averageScore entries
      = jsRound ((((entries.filter (fun e => e.hasPlan)).map
            (fun e => e.score)).sum : ℚ)
          / ((entries.filter (fun e => e.hasPlan)).length : ℚ)) := by
  simp only [averageScore]
  rw [if_neg h]

/-- C6: the weekly/monthly average is the rounded mean of the scores of
exactly those days of the window whose planned slot total is positive; days
without any planned slot are excluded from the mean rather than counted as
zero.  Requires at least one day with a plan. -/
theorem average_excludes_unplanned
    (days : List String) (recurring : Nat → Option (List String))
    (allSchedules allRecords : String → Option DayData)
    (hactive : 0 < (days.filter
        (fun d => 0 < specPlannedTotal recurring (hoursOf (allSchedules d)))).length) :
    averageScore (scoresFor days recurring allSchedules allRecords)
      = jsRound ((((days.filter
            (fun d => 0 < specPlannedTotal recurring (hoursOf (allSchedules d)))).map
              (fun d => ((scoreDay recurring (hoursOf (allSchedules d))
                (hoursOf (allRecords d))).score : ℚ))).sum)
          / ((days.filter
            (fun d => 0 < specPlannedTotal recurring (hoursOf (allSchedules d)))).length : ℚ)) := by
  have hhasPlan : ∀ d : String,
      (scoreDay recurring (hoursOf (allSchedules d)) (hoursOf (allRecords d))).hasPlan
        = decide (0 < specPlannedTotal recurring (hoursOf (allSchedules d))) := by
    intro d
    have h1 : (scoreTotals recurring (hoursOf (allSchedules d))
        (hoursOf (allRecords d))).1 = specPlannedTotal recurring (hoursOf (allSchedules d)) := by
      rw [scoreTotals_spec recurring (hoursOf (allSchedules d)) (hoursOf (allRecords d))]
    simp only [scoreDay, h1]
  have hfilter : (scoresFor days recurring allSchedules allRecords).filter
        (fun e => e.hasPlan)
      = (days.filter
          (fun d => 0 < specPlannedTotal recurring (hoursOf (allSchedules d)))).map
          (fun d => scoreDay recurring (hoursOf (allSchedules d)) (hoursOf (allRecords d))) := by
    rw [scoresFor, List.filter_map]
    exact congrArg _ (List.filter_congr (fun d _ => hhasPlan d))
  have hne : ((scoresFor days recurring allSchedules allRecords).filter
      (fun e => e.hasPlan)).length ≠ 0 := by
    rw [hfilter, List.length_map]
    omega
  rw [averageScore_pos _ hne, hfilter, List.length_map, List.map_map]
  rfl

/-- The seven day keys of the example week. -/
def weekDays : List String := ["d1", "d2", "d3", "d4", "d5", "d6", "d7"]

/-- The schedules of the example week: day d1 plans "A" at hour 9, day d2
plans "A" and "B" at hour 9, the other five days have no entry. -/
def weekSchedules : String → Option DayData := fun d =>
  if d = "d1" then some ⟨fun h => if h = 9 then ["A"] else []⟩
  else if d = "d2" then some ⟨fun h => if h = 9 then ["A", "B"] else []⟩
  else none

/-- The records of the example week: days d1 and d2 record "A" at hour 9. -/
def weekRecords : String → Option DayData := fun d =>
  if d = "d1" ∨ d = "d2" then some ⟨fun h => if h = 9 then ["A"] else []⟩
  else none

/-- An empty recurring template. -/
def noRecurring : Nat → Option (List String) := fun _ => none

/-- C6 witness: the example week has two planned days scoring 100 and 50 and
five unplanned days, and its average is 75. -/
theorem average_excludes_unplanned_witness :
    0 < (weekDays.filter
        (fun d => 0 < specPlannedTotal noRecurring (hoursOf (weekSchedules d)))).length
      ∧ averageScore (scoresFor weekDays noRecurring weekSchedules weekRecords) = 75 := by
  have hyp : 0 < (weekDays.filter
      (fun d => 0 < specPlannedTotal noRecurring (hoursOf (weekSchedules d)))).length := by
    decide
  refine ⟨hyp, (average_excludes_unplanned weekDays noRecurring weekSchedules
    weekRecords hyp).trans ?_⟩
  have hfil : weekDays.filter
      (fun d => 0 < specPlannedTotal noRecurring (hoursOf (weekSchedules d)))
      = ["d1", "d2"] := by decide
  rw [hfil]
  have ht1 : scoreTotals noRecurring (hoursOf (weekSchedules "d1"))
      (hoursOf (weekRecords "d1")) = (1, 1) := by decide
  have ht2 : scoreTotals noRecurring (hoursOf (weekSchedules "d2"))
      (hoursOf (weekRecords "d2")) = (2, 1) := by decide
  have hs1 : (scoreDay noRecurring (hoursOf (weekSchedules "d1"))
      (hoursOf (weekRecords "d1"))).score = 100 := by
    simp only [scoreDay, ht1]
    norm_num [jsRound]
  have hs2 : (scoreDay noRecurring (hoursOf (weekSchedules "d2"))
      (hoursOf (weekRecords "d2"))).score = 50 := by
    simp only [scoreDay, ht2]
    norm_num [jsRound]
  rw [List.map_cons, List.map_cons, List.map_nil, hs1, hs2]
  norm_num [jsRound]

/-- A state with no data, used as the current state at the import boundary. -/
def blankState : AppState :=
  { tasks := []
    schedule := fun _ => none
    recurringSchedule := fun _ => none
    records := fun _ => none
    reviews := fun _ => none }

/-- C9 counterexample: a document that parses but whose `tasks` field is not
a list leaves the state untouched yet signals no error (the failure alert is
raised only by the `JSON.parse` catch branch), and a document passing both
checks does not replace the state when the user declines the overwrite
confirmation; the replacement that the claim promises would have installed a
template entry at hour 9, which the resulting state does not have. -/
theorem import_silent_on_invalid_shape :
    (handleImportData (some ⟨false, true, twoHourTemplateState⟩) true blankState).1
        = blankState
      ∧ (handleImportData (some ⟨false, true, twoHourTemplateState⟩) true blankState).2
        = false
      ∧ (handleImportData (some ⟨true, true, twoHourTemplateState⟩) false blankState).1
        = blankState
      ∧ blankState.recurringSchedule 9 = none
      ∧ twoHourTemplateState.recurringSchedule 9 = some ["A"] :=
  ⟨rfl, rfl, rfl, rfl, rfl⟩

/-- C9 (amended): a document that fails to parse leaves the state untouched
and signals the import failure; a parsed document in which tasks is not a
list or schedule is absent leaves the state untouched and signals nothing;
a document passing the two checks fully replaces the state exactly when the
user confirms the overwrite, and otherwise leaves it untouched. -/
theorem import_boundary (d : ImportDoc) (confirmed : Bool) (s : AppState) :
    handleImportData none confirmed s = (s, true)
      ∧ handleImportData (some d) confirmed s
        = (if d.tasksIsArray && d.schedulePresent then
             (if confirmed then d.value else s)
           else s, false) := by
  refine ⟨rfl, ?_⟩
  cases hb : d.tasksIsArray && d.schedulePresent <;>
    simp [handleImportData, hb]

end Chronos
